import Mathlib

/-!
Verification development for the icka multi-account keep-alive tool
(src/icka.py).  Every definition below is a shallow embedding of the
corresponding Python function; stateful or effectful code is modelled by
explicit state passing and by event traces.

Numeric model: Python float values are modelled as exact rationals, so
decimal literals and the unit multiplications are computed exactly;
machine float rounding is outside the model.  The regex digit class is
modelled over ASCII digits, which covers every input the specification
discusses.
-/

/-! ## Duration parser (parse_duration_to_seconds, src/icka.py lines 257-279)

The Python function scans the input with the regular expression
`(\d+(?:\.\d+)?)([smhd])` via `re.findall`, accumulating
`value * unitSeconds` for every match, and raises ValueError exactly when
the accumulated total is `0.0`. -/

/-- ASCII decimal digit test, the `\d` class of the pattern. -/
def isDigitChar (c : Char) : Bool :=
  c = '0' || c = '1' || c = '2' || c = '3' || c = '4' ||
  c = '5' || c = '6' || c = '7' || c = '8' || c = '9'

/-- Unit characters accepted by the regex character class `[smhd]`. -/
def isUnitChar (c : Char) : Bool :=
  c = 's' || c = 'm' || c = 'h' || c = 'd'

/-- Numeric value of one ASCII digit. -/
def digitVal (c : Char) : Nat :=
  if c = '0' then 0 else if c = '1' then 1 else if c = '2' then 2
  else if c = '3' then 3 else if c = '4' then 4 else if c = '5' then 5
  else if c = '6' then 6 else if c = '7' then 7 else if c = '8' then 8
  else if c = '9' then 9 else 0

/-- Decimal value of a run of ASCII digits. -/
def digitsVal (ds : List Char) : Nat :=
  ds.foldl (fun n c => 10 * n + digitVal c) 0

/-- Maximal leading digit run, the greedy `\d+`. -/
def takeDigits : List Char → List Char
  | [] => []
  | c :: rest => if isDigitChar c then c :: takeDigits rest else []

/-- Input remaining after the maximal leading digit run. -/
def dropDigits : List Char → List Char
  | [] => []
  | c :: rest => if isDigitChar c then dropDigits rest else c :: rest

/-- Exact value of the decimal literal `intPart.fracPart` (the fractional
part may be empty, covering plain integer literals); this is the exact
real value that Python's `float(amount)` approximates. -/
def decimalVal (intPart fracPart : List Char) : ℚ :=
  mkRat (digitsVal intPart * 10 ^ fracPart.length + digitsVal fracPart) (10 ^ fracPart.length)

/-- One attempt of the regex `(\d+(?:\.\d+)?)([smhd])` anchored at the head
of `cs`.  Returns the token value, its unit and the remaining input.  The
case analysis reproduces the backtracking behaviour of the Python pattern:
shrinking a greedy `\d+` run can only expose another digit, never a unit
character, so a failed maximal attempt cannot be rescued and the engine
moves on one position. -/
def matchToken (cs : List Char) : Option (ℚ × Char × List Char) :=
  if (takeDigits cs).isEmpty then none
  else
    match dropDigits cs with
    | [] => none
    | c1 :: rest1 =>
      if c1 = '.' then
        if (takeDigits rest1).isEmpty then none
        else
          match dropDigits rest1 with
          | u :: rest4 =>
            if isUnitChar u then some (decimalVal (takeDigits cs) (takeDigits rest1), u, rest4)
            else none
          | [] => none
      else
        if isUnitChar c1 then some (decimalVal (takeDigits cs) [], c1, rest1) else none

/-- Left-to-right non-overlapping scan of `re.findall`: try a match at the
current position; on success continue after the match, on failure advance
one character.  The fuel argument keeps the recursion structural; fuel
equal to the input length always suffices because a successful match
consumes at least two characters and a failure consumes one
(scanTokensF_fuel_irrel below). -/
def scanTokensF : Nat → List Char → List (ℚ × Char)
  | 0, _ => []
  | _ + 1, [] => []
  | fuel + 1, c :: rest =>
    match matchToken (c :: rest) with
    | some (v, u, rest') => (v, u) :: scanTokensF fuel rest'
    | none => scanTokensF fuel rest

/-- All duration tokens found anywhere in the character list. -/
def scanTokens (cs : List Char) : List (ℚ × Char) :=
  scanTokensF cs.length cs

/-- Seconds per unit, from the if/elif chain of the Python loop body.  A
character outside `[smhd]` contributes nothing, exactly as the Python
chain would fall through (such characters are never produced by the
scan). -/
def unitSeconds (u : Char) : ℚ :=
  if u = 's' then 1
  else if u = 'm' then 60
  else if u = 'h' then 3600
  else if u = 'd' then 86400
  else 0

/-- Accumulation loop `total += val * unitSeconds` starting from `0.0`. -/
def durationTotal (toks : List (ℚ × Char)) : ℚ :=
  toks.foldl (fun t p => t + p.1 * unitSeconds p.2) 0

/-- Embedding of parse_duration_to_seconds: scan, accumulate, and fail
with the ValueError message exactly when the accumulated total is zero. -/
def parse_duration_to_seconds (s : String) : Except String ℚ :=
  let total := durationTotal (scanTokens s.data)
  if total = 0 then Except.error ("Could not parse duration: " ++ s)
  else Except.ok total

/-- Per-token contribution to the accumulated total. -/
def tokenContribution (p : ℚ × Char) : ℚ :=
  p.1 * unitSeconds p.2

/-- Sum of the per-token contributions of a token list. -/
def tokenSum (toks : List (ℚ × Char)) : ℚ :=
  (toks.map tokenContribution).sum

theorem dropDigits_length_le (cs : List Char) : (dropDigits cs).length ≤ cs.length := by
  induction cs with
  | nil => simp [dropDigits]
  | cons c rest ih =>
    by_cases hc : isDigitChar c
    · simp only [dropDigits, hc, if_true]
      exact le_trans ih (Nat.le_succ _)
    · simp [dropDigits, hc]

theorem dropDigits_cons_digit {c : Char} (rest : List Char) (hc : isDigitChar c = true) :
    dropDigits (c :: rest) = dropDigits rest := by
  simp [dropDigits, hc]

theorem takeDigits_nonempty_head {cs : List Char}
    (h : ¬(takeDigits cs).isEmpty = true) :
    ∃ c rest, cs = c :: rest ∧ isDigitChar c = true := by
  match cs with
  | [] => simp [takeDigits] at h
  | c :: rest =>
    by_cases hc : isDigitChar c
    · exact ⟨c, rest, rfl, hc⟩
    · simp [takeDigits, hc] at h

theorem dropDigits_le_tail {c : Char} {cs rest : List Char}
    (hcs : cs = c :: rest) (hc : isDigitChar c = true) :
    (dropDigits cs).length ≤ rest.length := by
  subst hcs
  rw [dropDigits_cons_digit rest hc]
  exact dropDigits_length_le rest

/-- A successful match consumes at least two characters, so a scan with
fuel equal to the input length never runs out. -/
theorem matchToken_shrinks {cs : List Char} {v : ℚ} {u : Char} {rest' : List Char}
    (h : matchToken cs = some (v, u, rest')) : rest'.length + 2 ≤ cs.length := by
  unfold matchToken at h
  split at h
  · exact absurd h (by simp)
  · rename_i hd
    obtain ⟨c, rest, hcs, hc⟩ := takeDigits_nonempty_head hd
    have hdrop : (dropDigits cs).length ≤ rest.length := dropDigits_le_tail hcs hc
    have hcslen : cs.length = rest.length + 1 := by rw [hcs]; rfl
    split at h
    · exact absurd h (by simp)
    · rename_i c1 rest1 heq
      have hlen1 : rest1.length + 1 ≤ rest.length := by
        have := congrArg List.length heq
        simp at this
        omega
      split at h
      · split at h
        · exact absurd h (by simp)
        · split at h
          · rename_i u4 rest4 heq4
            have hlen4 : rest4.length + 1 ≤ rest1.length := by
              have h1 : (dropDigits rest1).length ≤ rest1.length := dropDigits_length_le rest1
              have h2 := congrArg List.length heq4
              simp at h2
              omega
            split at h
            · injection h with htrip
              simp only [Prod.mk.injEq] at htrip
              obtain ⟨h1, h2, h3⟩ := htrip
              subst h3
              omega
            · exact absurd h (by simp)
          · exact absurd h (by simp)
      · split at h
        · injection h with htrip
          simp only [Prod.mk.injEq] at htrip
          obtain ⟨h1, h2, h3⟩ := htrip
          subst h3
          omega
        · exact absurd h (by simp)

theorem scanTokensF_zero (cs : List Char) : scanTokensF 0 cs = [] := rfl

theorem scanTokensF_nil (fuel : Nat) : scanTokensF fuel [] = [] := by
  cases fuel <;> rfl

theorem scanTokensF_cons (fuel : Nat) (c : Char) (rest : List Char) :
    scanTokensF (fuel + 1) (c :: rest)
      = match matchToken (c :: rest) with
        | some (v, u, rest') => (v, u) :: scanTokensF fuel rest'
        | none => scanTokensF fuel rest := rfl

theorem scanTokensF_cons_none {c : Char} {rest : List Char} (fuel : Nat)
    (hm : matchToken (c :: rest) = none) :
    scanTokensF (fuel + 1) (c :: rest) = scanTokensF fuel rest := by
  rw [scanTokensF_cons, hm]

theorem scanTokensF_cons_some {c : Char} {rest : List Char} {v : ℚ} {u : Char}
    {rest' : List Char} (fuel : Nat) (hm : matchToken (c :: rest) = some (v, u, rest')) :
    scanTokensF (fuel + 1) (c :: rest) = (v, u) :: scanTokensF fuel rest' := by
  rw [scanTokensF_cons, hm]

/-- Fuel irrelevance: any fuel at least the input length computes the same
token list as the fuel chosen in scanTokens. -/
theorem scanTokensF_fuel_irrel :
    ∀ (n : Nat) (cs : List Char), cs.length ≤ n → ∀ fuel, cs.length ≤ fuel →
      scanTokensF fuel cs = scanTokensF cs.length cs := by
  intro n
  induction n with
  | zero =>
    intro cs hcs fuel _
    have : cs = [] := List.length_eq_zero.mp (Nat.le_zero.mp hcs)
    subst this
    rw [scanTokensF_nil, scanTokensF_nil]
  | succ n ih =>
    intro cs hcs fuel hf
    cases cs with
    | nil => rw [scanTokensF_nil, scanTokensF_nil]
    | cons c rest =>
      cases fuel with
      | zero => exact absurd hf (by simp)
      | succ f =>
        have hlen : (c :: rest).length = rest.length + 1 := rfl
        rw [hlen] at hcs hf
        rw [show (c :: rest).length = rest.length + 1 from rfl]
        rcases hm : matchToken (c :: rest) with _ | ⟨v, u, rest'⟩
        · have h1 : rest.length ≤ n := by omega
          have h2 : rest.length ≤ f := by omega
          rw [scanTokensF_cons_none f hm, scanTokensF_cons_none rest.length hm]
          exact ih rest h1 f h2
        · have hs := matchToken_shrinks hm
          rw [hlen] at hs
          have h1 : rest'.length ≤ n := by omega
          have h2 : rest'.length ≤ f := by omega
          have h3 : rest'.length ≤ rest.length := by omega
          rw [scanTokensF_cons_some f hm, scanTokensF_cons_some rest.length hm]
          rw [ih rest' h1 f h2, ih rest' h1 rest.length h3]

theorem durationTotal_eq_tokenSum_aux (l : List (ℚ × Char)) :
    ∀ a : ℚ, l.foldl (fun t p => t + p.1 * unitSeconds p.2) a = a + tokenSum l := by
  induction l with
  | nil => intro a; simp [tokenSum]
  | cons p rest ih =>
    intro a
    simp only [List.foldl_cons, ih, tokenSum, List.map_cons, List.sum_cons,
      tokenContribution]
    ring

theorem durationTotal_eq_tokenSum (l : List (ℚ × Char)) :
    durationTotal l = tokenSum l := by
  simpa using durationTotal_eq_tokenSum_aux l 0

theorem decimalVal_nonneg (d f : List Char) : 0 ≤ decimalVal d f :=
  Rat.mkRat_nonneg (by positivity) _

theorem matchToken_sound {cs : List Char} {v : ℚ} {u : Char} {rest : List Char}
    (h : matchToken cs = some (v, u, rest)) : 0 ≤ v ∧ isUnitChar u = true := by
  unfold matchToken at h
  split at h
  · exact absurd h (by simp)
  · split at h
    · exact absurd h (by simp)
    · split at h
      · split at h
        · exact absurd h (by simp)
        · split at h
          · split at h
            · rename_i hu
              injection h with htrip
              simp only [Prod.mk.injEq] at htrip
              obtain ⟨h1, h2, h3⟩ := htrip
              subst h1
              subst h2
              exact ⟨decimalVal_nonneg _ _, hu⟩
            · exact absurd h (by simp)
          · exact absurd h (by simp)
      · split at h
        · rename_i hu
          injection h with htrip
          simp only [Prod.mk.injEq] at htrip
          obtain ⟨h1, h2, h3⟩ := htrip
          subst h1
          subst h2
          exact ⟨decimalVal_nonneg _ _, hu⟩
        · exact absurd h (by simp)

theorem scanTokensF_sound (fuel : Nat) :
    ∀ (cs : List Char) (p : ℚ × Char), p ∈ scanTokensF fuel cs →
      0 ≤ p.1 ∧ isUnitChar p.2 = true := by
  induction fuel with
  | zero => intro cs p hp; rw [scanTokensF_zero] at hp; simp at hp
  | succ fuel ih =>
    intro cs p hp
    cases cs with
    | nil => rw [scanTokensF_nil] at hp; simp at hp
    | cons c rest =>
      rcases hm : matchToken (c :: rest) with _ | ⟨v, u, rest'⟩
      · rw [scanTokensF_cons_none fuel hm] at hp
        exact ih rest p hp
      · rw [scanTokensF_cons_some fuel hm] at hp
        rcases List.mem_cons.mp hp with h | h
        · subst h
          exact matchToken_sound hm
        · exact ih rest' p h

theorem scanTokens_sound {cs : List Char} {p : ℚ × Char}
    (hp : p ∈ scanTokens cs) : 0 ≤ p.1 ∧ isUnitChar p.2 = true :=
  scanTokensF_sound cs.length cs p hp

theorem unitSeconds_pos {u : Char} (h : isUnitChar u = true) : 0 < unitSeconds u := by
  have h' : u = 's' ∨ u = 'm' ∨ u = 'h' ∨ u = 'd' := by
    simpa [isUnitChar, or_assoc] using h
  rcases h' with rfl | rfl | rfl | rfl <;>
    norm_num [show unitSeconds 's' = (1 : ℚ) from rfl,
      show unitSeconds 'm' = (60 : ℚ) from rfl,
      show unitSeconds 'h' = (3600 : ℚ) from rfl,
      show unitSeconds 'd' = (86400 : ℚ) from rfl]

theorem tokenSum_eq_zero_iff (l : List (ℚ × Char))
    (hl : ∀ p ∈ l, 0 ≤ p.1 ∧ isUnitChar p.2 = true) :
    tokenSum l = 0 ↔ ∀ p ∈ l, p.1 = 0 := by
  induction l with
  | nil => simp [tokenSum]
  | cons p rest ih =>
    have hp := hl p (List.mem_cons_self p rest)
    have hrest : ∀ q ∈ rest, 0 ≤ q.1 ∧ isUnitChar q.2 = true :=
      fun q hq => hl q (List.mem_cons_of_mem p hq)
    have hsum_nonneg : 0 ≤ tokenSum rest := by
      unfold tokenSum
      apply List.sum_nonneg
      intro x hx
      obtain ⟨q, hq, hqx⟩ := List.mem_map.mp hx
      have := hrest q hq
      rw [← hqx]
      exact mul_nonneg this.1 (le_of_lt (unitSeconds_pos this.2))
    have hhead_nonneg : 0 ≤ tokenContribution p :=
      mul_nonneg hp.1 (le_of_lt (unitSeconds_pos hp.2))
    have hcons : tokenSum (p :: rest) = tokenContribution p + tokenSum rest := by
      simp [tokenSum]
    constructor
    · intro h0
      rw [hcons] at h0
      have h1 : tokenContribution p = 0 := by linarith
      have h2 : tokenSum rest = 0 := by linarith
      intro q hq
      rcases List.mem_cons.mp hq with h | h
      · subst h
        have hus : unitSeconds q.2 ≠ 0 := ne_of_gt (unitSeconds_pos hp.2)
        rcases mul_eq_zero.mp h1 with h | h
        · exact h
        · exact absurd h hus
      · exact (ih hrest).mp h2 q h
    · intro hall
      rw [hcons]
      have h1 : tokenContribution p = 0 := by
        unfold tokenContribution
        rw [hall p (List.mem_cons_self p rest)]
        ring
      have h2 : tokenSum rest = 0 :=
        (ih hrest).mpr fun q hq => hall q (List.mem_cons_of_mem p hq)
      rw [h1, h2]; ring

/-- C3 counterexample: on the input "0s" exactly one token matches, yet the
parser fails, because the accumulated total is zero.  This refutes the
claim that the parser succeeds whenever at least one token matches. -/
theorem duration_parser_zero_token_counterexample :
    scanTokens "0s".data = [((0 : ℚ), 's')] ∧
      parse_duration_to_seconds "0s" = Except.error "Could not parse duration: 0s" := by
  have h0 : (mkRat 0 1 : ℚ) = 0 := by norm_num [Rat.mkRat_eq_div]
  have hscan : scanTokens "0s".data = [((0 : ℚ), 's')] := by
    rw [show scanTokens "0s".data = [(mkRat 0 1, 's')] from by decide, h0]
  refine ⟨hscan, ?_⟩
  unfold parse_duration_to_seconds
  rw [hscan]
  simp [durationTotal]

/-- C3 (amended): the parser fails exactly when the accumulated total is
zero, i.e. when zero tokens match or every matched token has numeric value
zero; it succeeds whenever at least one matched token has a nonzero value.
In particular parse("") and parse("abc") fail. -/
theorem duration_parser_failure_condition (s : String) :
    ((∃ t, parse_duration_to_seconds s = Except.ok t) ↔
      ∃ p ∈ scanTokens s.data, p.1 ≠ 0) ∧
    parse_duration_to_seconds "" = Except.error "Could not parse duration: " ∧
    parse_duration_to_seconds "abc" = Except.error "Could not parse duration: abc" := by
  refine ⟨?_, ?_, ?_⟩
  · have hsound : ∀ p ∈ scanTokens s.data, 0 ≤ p.1 ∧ isUnitChar p.2 = true :=
      fun p hp => scanTokens_sound hp
    have hiff := tokenSum_eq_zero_iff (scanTokens s.data) hsound
    unfold parse_duration_to_seconds
    rw [durationTotal_eq_tokenSum]
    by_cases h0 : tokenSum (scanTokens s.data) = 0
    · rw [if_pos h0]
      constructor
      · rintro ⟨t, ht⟩
        exact absurd ht (by simp)
      · rintro ⟨p, hp, hpne⟩
        exact absurd (hiff.mp h0 p hp) hpne
    · rw [if_neg h0]
      constructor
      · intro _
        by_contra hnone
        push_neg at hnone
        exact h0 (hiff.mpr fun p hp => hnone p hp)
      · intro _
        exact ⟨tokenSum (scanTokens s.data), rfl⟩
  · unfold parse_duration_to_seconds
    rw [show scanTokens "".data = [] from by decide]
    simp [durationTotal]
  · unfold parse_duration_to_seconds
    rw [show scanTokens "abc".data = [] from by decide]
    simp [durationTotal]

/-- C3 witness: at the concrete input "5m" the parser succeeds, via the
amended equivalence applied at "5m" with the matched token (5, m). -/
theorem duration_parser_failure_condition_witness :
    ∃ t, parse_duration_to_seconds "5m" = Except.ok t := by
  apply ((duration_parser_failure_condition "5m").1).mpr
  refine ⟨(mkRat 5 1, 'm'), by decide, ?_⟩
  norm_num [Rat.mkRat_eq_div]

/-- C5: whenever the parser succeeds its result is the sum over all matched
tokens of value times unit seconds (s=1, m=60, h=3600, d=86400); the sum is
invariant under permutation of the token list (order independence), and the
documented examples evaluate as claimed. -/
theorem duration_parser_sum_semantics (s : String) :
    (∀ t, parse_duration_to_seconds s = Except.ok t → t = tokenSum (scanTokens s.data)) ∧
    (∀ l l' : List (ℚ × Char), l.Perm l' → tokenSum l = tokenSum l') ∧
    parse_duration_to_seconds "90s" = Except.ok 90 ∧
    parse_duration_to_seconds "5m" = Except.ok 300 ∧
    parse_duration_to_seconds "1.5h" = Except.ok 5400 ∧
    parse_duration_to_seconds "2h30m" = Except.ok 9000 ∧
    parse_duration_to_seconds "1h15m30s" = Except.ok 4530 := by
  refine ⟨?_, ?_, ?_, ?_, ?_, ?_, ?_⟩
  · intro t ht
    unfold parse_duration_to_seconds at ht
    rw [durationTotal_eq_tokenSum] at ht
    by_cases h0 : tokenSum (scanTokens s.data) = 0
    · rw [if_pos h0] at ht
      exact absurd ht (by simp)
    · rw [if_neg h0] at ht
      exact (Except.ok.inj ht).symm
  · intro l l' hperm
    unfold tokenSum
    exact (hperm.map tokenContribution).sum_eq
  · unfold parse_duration_to_seconds
    rw [show scanTokens "90s".data = [(mkRat 90 1, 's')] from by decide]
    norm_num [durationTotal, show unitSeconds 's' = (1 : ℚ) from rfl, Rat.mkRat_eq_div]
  · unfold parse_duration_to_seconds
    rw [show scanTokens "5m".data = [(mkRat 5 1, 'm')] from by decide]
    norm_num [durationTotal, show unitSeconds 'm' = (60 : ℚ) from rfl, Rat.mkRat_eq_div]
  · unfold parse_duration_to_seconds
    rw [show scanTokens "1.5h".data = [(mkRat 15 10, 'h')] from by decide]
    norm_num [durationTotal, show unitSeconds 'h' = (3600 : ℚ) from rfl, Rat.mkRat_eq_div]
  · unfold parse_duration_to_seconds
    rw [show scanTokens "2h30m".data = [(mkRat 2 1, 'h'), (mkRat 30 1, 'm')] from by decide]
    norm_num [durationTotal, show unitSeconds 'h' = (3600 : ℚ) from rfl,
      show unitSeconds 'm' = (60 : ℚ) from rfl, Rat.mkRat_eq_div]
  · unfold parse_duration_to_seconds
    rw [show scanTokens "1h15m30s".data
        = [(mkRat 1 1, 'h'), (mkRat 15 1, 'm'), (mkRat 30 1, 's')] from by decide]
    norm_num [durationTotal, show unitSeconds 'h' = (3600 : ℚ) from rfl,
      show unitSeconds 'm' = (60 : ℚ) from rfl,
      show unitSeconds 's' = (1 : ℚ) from rfl, Rat.mkRat_eq_div]

/-- C5 witness: the general sum law applied at the concrete input "2h30m",
and order independence applied to its token list and a permutation of it. -/
theorem duration_parser_sum_semantics_witness :
    (9000 : ℚ) = tokenSum (scanTokens "2h30m".data) ∧
      tokenSum [((2 : ℚ), 'h'), ((30 : ℚ), 'm')] = tokenSum [((30 : ℚ), 'm'), ((2 : ℚ), 'h')] := by
  have h := duration_parser_sum_semantics "2h30m"
  exact ⟨h.1 9000 h.2.2.2.2.2.1, h.2.1 _ _ (List.Perm.swap _ _ _)⟩

/-! ## Account source (load_accounts, src/icka.py lines 218-254)

The Python function reads the accounts file line by line: strip each line,
skip blank lines and lines starting with '#', split the rest at the first
':' (or, failing that, the first ','), strip both parts; a line with
neither separator raises SystemExit, aborting the whole load.  When no
file is given a single truthy email/password pair is used, and an empty
account list raises the "No accounts configured" SystemExit.  Python
strings are modelled by Lean strings over their character lists; str.strip
is modelled over the ASCII whitespace characters, which covers every input
the specification discusses. -/

/-- ASCII whitespace, the characters Python str.strip removes. -/
def isSpaceChar (c : Char) : Bool :=
  c = ' ' || c = '\t' || c = '\n' || c = '\r' || c = '\x0b' || c = '\x0c'

/-- Removal of leading whitespace characters. -/
def trimLeftChars : List Char → List Char
  | [] => []
  | c :: rest => if isSpaceChar c then trimLeftChars rest else c :: rest

/-- Embedding of Python str.strip: drop whitespace from both ends. -/
def pyStrip (s : String) : String :=
  ⟨(trimLeftChars (trimLeftChars s.data).reverse).reverse⟩

/-- Test for a leading '#', the startswith check applied after stripping. -/
def startsWithHash : List Char → Bool
  | [] => false
  | c :: _ => c = '#'

/-- Split at the first occurrence of sep, returning both sides, or none
when sep does not occur; this is Python s.split(sep, 1) together with the
`sep in s` membership test. -/
def splitFirstAux (sep : Char) : List Char → Option (List Char × List Char)
  | [] => none
  | c :: rest =>
    if c = sep then some ([], rest)
    else
      match splitFirstAux sep rest with
      | some (l, r) => some (c :: l, r)
      | none => none

/-- String-level wrapper of splitFirstAux. -/
def splitOnce (sep : Char) (s : String) : Option (String × String) :=
  match splitFirstAux sep s.data with
  | some (l, r) => some (⟨l⟩, ⟨r⟩)
  | none => none

/-- The three SystemExit failures of load_accounts. -/
inductive LoadError where
  | accountsFileNotFound
  | invalidAccountLine (line : String)
  | noAccountsConfigured
deriving DecidableEq

/-- Per-line loop of load_accounts over the file lines, with the
SystemExit on a separator-free line aborting the whole load. -/
def parseAccountLines : List String → Except LoadError (List (String × String))
  | [] => Except.ok []
  | l :: rest =>
    if pyStrip l = "" || startsWithHash (pyStrip l).data then parseAccountLines rest
    else
      match splitOnce ':' (pyStrip l) with
      | some (em, pw) =>
        match parseAccountLines rest with
        | Except.ok accs => Except.ok ((pyStrip em, pyStrip pw) :: accs)
        | Except.error e => Except.error e
      | none =>
        match splitOnce ',' (pyStrip l) with
        | some (em, pw) =>
          match parseAccountLines rest with
          | Except.ok accs => Except.ok ((pyStrip em, pyStrip pw) :: accs)
          | Except.error e => Except.error e
        | none => Except.error (LoadError.invalidAccountLine (pyStrip l))

/-- Whether the accounts file exists, and its lines when it does. -/
inductive FileResult where
  | notFound
  | found (lines : List String)

/-- Embedding of load_accounts.  The accountsFile argument is none when no
(truthy) path is configured; email and password model the optional single
pair, with Python truthiness making empty strings count as absent. -/
def load_accounts (accountsFile : Option FileResult) (email password : Option String) :
    Except LoadError (List (String × String)) :=
  match accountsFile with
  | some FileResult.notFound => Except.error LoadError.accountsFileNotFound
  | some (FileResult.found lines) =>
    match parseAccountLines lines with
    | Except.error e => Except.error e
    | Except.ok accounts =>
      if accounts.isEmpty then Except.error LoadError.noAccountsConfigured
      else Except.ok accounts
  | none =>
    match email, password with
    | some em, some pw =>
      if em = "" || pw = "" then Except.error LoadError.noAccountsConfigured
      else Except.ok [(em, pw)]
    | some _, none => Except.error LoadError.noAccountsConfigured
    | none, _ => Except.error LoadError.noAccountsConfigured

/-- Classification of one file line, written from the specification text:
trim the line; skip it when blank or starting with '#'; otherwise split it
into exactly two trimmed parts at the first ':' if present, else at the
first ','; a line with neither separator is bad. -/
inductive LineClass where
  | skip
  | account (em pw : String)
  | bad (line : String)
deriving DecidableEq

/-- Specification-side line classifier. -/
def lineClassSpec (l : String) : LineClass :=
  if pyStrip l = "" || startsWithHash (pyStrip l).data then LineClass.skip
  else
    match splitOnce ':' (pyStrip l) with
    | some (em, pw) => LineClass.account (pyStrip em) (pyStrip pw)
    | none =>
      match splitOnce ',' (pyStrip l) with
      | some (em, pw) => LineClass.account (pyStrip em) (pyStrip pw)
      | none => LineClass.bad (pyStrip l)

/-- The account a line contributes, none when skipped or bad. -/
def accountOfLine (l : String) : Option (String × String) :=
  match lineClassSpec l with
  | LineClass.account em pw => some (em, pw)
  | _ => none

/-- Whether a line is bad (neither separator after trimming). -/
def lineIsBad (l : String) : Bool :=
  match lineClassSpec l with
  | LineClass.bad _ => true
  | _ => false

/-- Specification-side loader: fail on the first bad line, otherwise keep
the classified accounts in file order. -/
def loadSpec (lines : List String) : Except LoadError (List (String × String)) :=
  match lines.find? lineIsBad with
  | some bl => Except.error (LoadError.invalidAccountLine (pyStrip bl))
  | none => Except.ok (lines.filterMap accountOfLine)

theorem parseAccountLines_cons (l : String) (rest : List String) :
    parseAccountLines (l :: rest)
      = if pyStrip l = "" || startsWithHash (pyStrip l).data then parseAccountLines rest
        else
          match splitOnce ':' (pyStrip l) with
          | some (em, pw) =>
            match parseAccountLines rest with
            | Except.ok accs => Except.ok ((pyStrip em, pyStrip pw) :: accs)
            | Except.error e => Except.error e
          | none =>
            match splitOnce ',' (pyStrip l) with
            | some (em, pw) =>
              match parseAccountLines rest with
              | Except.ok accs => Except.ok ((pyStrip em, pyStrip pw) :: accs)
              | Except.error e => Except.error e
            | none => Except.error (LoadError.invalidAccountLine (pyStrip l)) := rfl

theorem lineClassSpec_skip {l : String}
    (h : (pyStrip l = "" || startsWithHash (pyStrip l).data) = true) :
    lineClassSpec l = LineClass.skip := by
  unfold lineClassSpec
  rw [if_pos h]

theorem lineClassSpec_colon {l : String} {em pw : String}
    (h : ¬(pyStrip l = "" || startsWithHash (pyStrip l).data) = true)
    (hs : splitOnce ':' (pyStrip l) = some (em, pw)) :
    lineClassSpec l = LineClass.account (pyStrip em) (pyStrip pw) := by
  unfold lineClassSpec
  rw [if_neg h]
  simp only [hs]

theorem lineClassSpec_comma {l : String} {em pw : String}
    (h : ¬(pyStrip l = "" || startsWithHash (pyStrip l).data) = true)
    (hc : splitOnce ':' (pyStrip l) = none)
    (hs : splitOnce ',' (pyStrip l) = some (em, pw)) :
    lineClassSpec l = LineClass.account (pyStrip em) (pyStrip pw) := by
  unfold lineClassSpec
  rw [if_neg h]
  simp only [hc, hs]

theorem lineClassSpec_bad {l : String}
    (h : ¬(pyStrip l = "" || startsWithHash (pyStrip l).data) = true)
    (hc : splitOnce ':' (pyStrip l) = none)
    (hm : splitOnce ',' (pyStrip l) = none) :
    lineClassSpec l = LineClass.bad (pyStrip l) := by
  unfold lineClassSpec
  rw [if_neg h]
  simp only [hc, hm]

theorem loadSpec_cons_skip {l : String} (rest : List String)
    (h : lineClassSpec l = LineClass.skip) :
    loadSpec (l :: rest) = loadSpec rest := by
  unfold loadSpec
  rw [List.find?_cons_of_neg _ (by simp [lineIsBad, h]),
    List.filterMap_cons_none (by simp [accountOfLine, h])]

theorem loadSpec_cons_account {l em pw : String} (rest : List String)
    (h : lineClassSpec l = LineClass.account em pw) :
    loadSpec (l :: rest)
      = match loadSpec rest with
        | Except.ok accs => Except.ok ((em, pw) :: accs)
        | Except.error e => Except.error e := by
  unfold loadSpec
  rw [List.find?_cons_of_neg _ (by simp [lineIsBad, h]),
    List.filterMap_cons_some (show accountOfLine l = some (em, pw) by
      simp [accountOfLine, h])]
  rcases hf : List.find? lineIsBad rest with _ | bl <;> simp

theorem loadSpec_cons_bad {l b : String} (rest : List String)
    (h : lineClassSpec l = LineClass.bad b) :
    loadSpec (l :: rest) = Except.error (LoadError.invalidAccountLine (pyStrip l)) := by
  unfold loadSpec
  rw [List.find?_cons_of_pos _ (by simp [lineIsBad, h])]

/-- The per-line loop of load_accounts agrees with the specification-side
loader on every line list. -/
theorem parseAccountLines_eq_loadSpec (lines : List String) :
    parseAccountLines lines = loadSpec lines := by
  induction lines with
  | nil => rfl
  | cons l rest ih =>
    by_cases hskip : (pyStrip l = "" || startsWithHash (pyStrip l).data) = true
    · rw [show parseAccountLines (l :: rest) = parseAccountLines rest from by
        rw [parseAccountLines_cons, if_pos hskip]]
      rw [ih, loadSpec_cons_skip rest (lineClassSpec_skip hskip)]
    · rcases hc : splitOnce ':' (pyStrip l) with _ | ⟨em, pw⟩
      · rcases hm : splitOnce ',' (pyStrip l) with _ | ⟨em, pw⟩
        · rw [show parseAccountLines (l :: rest)
              = Except.error (LoadError.invalidAccountLine (pyStrip l)) from by
            rw [parseAccountLines_cons, if_neg hskip]; simp only [hc, hm]]
          rw [loadSpec_cons_bad rest (lineClassSpec_bad hskip hc hm)]
        · rw [show parseAccountLines (l :: rest)
              = match parseAccountLines rest with
                | Except.ok accs => Except.ok ((pyStrip em, pyStrip pw) :: accs)
                | Except.error e => Except.error e from by
            rw [parseAccountLines_cons, if_neg hskip]; simp only [hc, hm]]
          rw [ih, loadSpec_cons_account rest (lineClassSpec_comma hskip hc hm)]
      · rw [show parseAccountLines (l :: rest)
            = match parseAccountLines rest with
              | Except.ok accs => Except.ok ((pyStrip em, pyStrip pw) :: accs)
              | Except.error e => Except.error e from by
          rw [parseAccountLines_cons, if_neg hskip]; simp only [hc]]
        rw [ih, loadSpec_cons_account rest (lineClassSpec_colon hskip hc)]

/-- C8: the loader trims each line, skips blank and '#' lines, splits every
remaining line into two trimmed parts at the first ':' when present and
otherwise at the first ',', aborts the whole load with InvalidAccountLine
on a line with neither separator, and preserves file line order - stated
as agreement with the specification-side loader on every line list,
together with the documented examples. -/
theorem load_accounts_file_parsing (lines : List String) :
    parseAccountLines lines = loadSpec lines ∧
    load_accounts (some (FileResult.found ["a@x:p1", "", "# comment", "b@x,p2"])) none none
      = Except.ok [("a@x", "p1"), ("b@x", "p2")] ∧
    parseAccountLines ["bad-line-no-separator"]
      = Except.error (LoadError.invalidAccountLine "bad-line-no-separator") :=
  ⟨parseAccountLines_eq_loadSpec lines, rfl, rfl⟩

theorem parseAccountLines_all_skip {lines : List String}
    (h : ∀ l ∈ lines, lineClassSpec l = LineClass.skip) :
    parseAccountLines lines = Except.ok [] := by
  induction lines with
  | nil => rfl
  | cons l rest ih =>
    have hl := h l (List.mem_cons_self l rest)
    have hskip : (pyStrip l = "" || startsWithHash (pyStrip l).data) = true := by
      by_contra hcontra
      unfold lineClassSpec at hl
      rw [if_neg hcontra] at hl
      rcases hc : splitOnce ':' (pyStrip l) with _ | ⟨em, pw⟩ <;> rw [hc] at hl
      · rcases hm : splitOnce ',' (pyStrip l) with _ | ⟨em, pw⟩ <;> rw [hm] at hl <;>
          exact absurd hl (by simp)
      · exact absurd hl (by simp)
    rw [parseAccountLines_cons, if_pos hskip]
    exact ih fun x hx => h x (List.mem_cons_of_mem l hx)

/-- C10: an accounts file that exists but yields no account (only blank and
comment lines) fails with the "No accounts configured" SystemExit - the
same error as when no source is configured at all - rather than returning
an empty list or the invalid-line error, even when a single email/password
pair is also supplied, because the file branch takes precedence. -/
theorem load_accounts_empty_file_no_accounts (lines : List String)
    (email password : Option String)
    (hall : ∀ l ∈ lines, lineClassSpec l = LineClass.skip) :
    load_accounts (some (FileResult.found lines)) email password
      = Except.error LoadError.noAccountsConfigured ∧
    load_accounts none none none = Except.error LoadError.noAccountsConfigured := by
  constructor
  · show (match parseAccountLines lines with
        | Except.error e => Except.error e
        | Except.ok accounts =>
          if accounts.isEmpty then Except.error LoadError.noAccountsConfigured
          else Except.ok accounts)
        = Except.error LoadError.noAccountsConfigured
    rw [parseAccountLines_all_skip hall]
    rfl
  · rfl

/-- C10 witness: a file of one blank line, one comment line and one
whitespace line, with a single pair also supplied, still fails with the
no-accounts error. -/
theorem load_accounts_empty_file_no_accounts_witness :
    load_accounts (some (FileResult.found ["", "# note", "   "])) (some "a@x") (some "pw")
      = Except.error LoadError.noAccountsConfigured :=
  (load_accounts_empty_file_no_accounts ["", "# note", "   "] (some "a@x") (some "pw")
    (by decide)).1

/-! ## WebSocket authentication (auth_websocket, src/icka.py lines 159-181)

The Python function opens the socket, then inside a try block sends the
auth frame, receives one frame, decodes it as JSON, reads the truthiness
of its success field, calls ws.close() and returns; a finally block calls
ws.close() again inside try/except-pass.  The websocket handle is modelled
by explicit state: wsCloseLib models websocket-client's close(), which
records the invocation and performs the closing handshake only when the
connection is still open (close on an already-closed connection is a
no-op).  The network outcome of send/recv and the JSON decode of the
received frame are oracle inputs. -/

/-- Outcome of the send/recv/decode sequence inside the try block: a
transport-level exception, or a received frame whose JSON decode fails, or
a decoded frame whose success field has the given truthiness. -/
inductive WsOutcome where
  | transportErr (msg : String)
  | frame (decode : Except String Bool)

/-- Connection state of a websocket handle, with instrumentation counting
close() invocations and actual open-to-closed transitions. -/
structure WsState where
  connected : Bool
  closeCalls : Nat
  closeTransitions : Nat
deriving DecidableEq

/-- websocket-client close(): always counts as an invocation; the closing
handshake happens only when still connected. -/
def wsCloseLib (st : WsState) : WsState :=
  { connected := false,
    closeCalls := st.closeCalls + 1,
    closeTransitions := st.closeTransitions + (if st.connected then 1 else 0) }

/-- Embedding of auth_websocket: the freshly opened connection, the try
block (send, recv, decode, read success, close, return) and the finally
block (close under try/except-pass).  The first component is the returned
truthiness or the propagated exception message; the second is the final
handle state. -/
def auth_websocket (outcome : WsOutcome) : Except String Bool × WsState :=
  let st0 : WsState := { connected := true, closeCalls := 0, closeTransitions := 0 }
  let tryResult : Except String (Bool × WsState) :=
    match outcome with
    | WsOutcome.transportErr msg => Except.error msg
    | WsOutcome.frame (Except.error msg) => Except.error msg
    | WsOutcome.frame (Except.ok b) => Except.ok (b, wsCloseLib st0)
  match tryResult with
  | Except.ok (b, st1) => (Except.ok b, wsCloseLib st1)
  | Except.error e => (Except.error e, wsCloseLib st0)

/-- C4: on every path - success, a response with success false, and a
response-frame decode error - the connection undergoes exactly one
open-to-closed transition before the step returns and ends closed.  On the
decoded paths ws.close() is invoked twice (line 175 and the finally
block), the second invocation finding the connection already closed and
doing nothing; on the decode-error and transport-error paths it is invoked
exactly once, by the finally block.  The decoded truthiness is returned
unchanged. -/
theorem auth_websocket_close_once (outcome : WsOutcome) :
    (auth_websocket outcome).2.closeTransitions = 1 ∧
    (auth_websocket outcome).2.connected = false ∧
    1 ≤ (auth_websocket outcome).2.closeCalls ∧
    (∀ b, outcome = WsOutcome.frame (Except.ok b) →
      (auth_websocket outcome).1 = Except.ok b ∧
        (auth_websocket outcome).2.closeCalls = 2) ∧
    (∀ msg, outcome = WsOutcome.frame (Except.error msg) →
      (auth_websocket outcome).1 = Except.error msg ∧
        (auth_websocket outcome).2.closeCalls = 1) := by
  rcases outcome with msg | d
  · exact ⟨rfl, rfl, le_refl 1,
      fun b hb => absurd hb (by simp),
      fun m hm => absurd hm (by simp)⟩
  · rcases d with dmsg | db
    · refine ⟨rfl, rfl, le_refl 1, fun b hb => absurd hb (by simp), ?_⟩
      intro m hm
      have hme : dmsg = m := by simpa using hm
      subst hme
      exact ⟨rfl, rfl⟩
    · refine ⟨rfl, rfl, Nat.le_succ 1, ?_, fun m hm => absurd hm (by simp)⟩
      intro b hb
      have hbe : db = b := by simpa using hb
      subst hbe
      exact ⟨rfl, rfl⟩

/-- C4 witness: on the concrete success outcome the theorem yields exactly
one close transition, a closed final state, and the successful result with
two close invocations. -/
theorem auth_websocket_close_once_witness :
    (auth_websocket (WsOutcome.frame (Except.ok true))).2.closeTransitions = 1 ∧
    (auth_websocket (WsOutcome.frame (Except.ok true))).1 = Except.ok true ∧
    (auth_websocket (WsOutcome.frame (Except.ok true))).2.closeCalls = 2 := by
  have h := auth_websocket_close_once (WsOutcome.frame (Except.ok true))
  have hs := h.2.2.2.1 true rfl
  exact ⟨h.1, hs.1, hs.2⟩

/-! ## Handshake driver (keep_alive, src/icka.py lines 184-210)

keep_alive runs the three protocol steps strictly in order: token request
(get_auth_token), login (get_session), WebSocket auth (auth_websocket).
The decoded HTTP responses are oracle inputs; a transport or JSON-decode
failure of a request is its oracle's error case.  Dynamic JSON dicts are
modelled structurally: the success field by its Python truthiness, each
string field by an Option that is none when the key is absent.  The error
type names the specification's failure taxonomy; each constructor's
comment records the concrete Python exception it embeds. -/

/-- Decoded response of the token endpoint: success truthiness and the
token field (none when absent; Python treats an empty token as missing). -/
structure TokenResponse where
  success : Bool
  token : Option String

/-- Decoded response of the login endpoint. -/
structure SessionResponse where
  success : Bool
  websocket_host : Option String
  websocket_path : Option String
  session : Option String

/-- The three protocol steps, recorded in the order keep_alive starts
them. -/
inductive Step where
  | tokenRequest
  | loginRequest
  | wsAuth
deriving DecidableEq

/-- Failure taxonomy of one account's handshake (names from the
specification; each embeds a concrete Python exception). -/
inductive HandshakeError where
  /-- Any requests / websocket / json exception propagating out of a step. -/
  | transport (msg : String)
  /-- RuntimeError "get auth token failed". -/
  | tokenRequestFailed
  /-- RuntimeError "auth token missing in response". -/
  | tokenMissing
  /-- RuntimeError "get session failed, check email and password". -/
  | loginFailed
  /-- KeyError raised by the subscript on the named missing key of a
  successful login response. -/
  | malformedSessionResponse (missingKey : String)
  /-- RuntimeError "auth websocket request failed". -/
  | webSocketAuthFailed

/-- Python truthiness of an optional string: absent or empty is falsy. -/
def optStrFalsy : Option String → Bool
  | none => true
  | some s => s = ""

/-- Embedding of keep_alive for one account: the result of the handshake
and the trace of protocol steps started, in order.  tokenResp and
loginResp are the oracles for the two HTTP requests (error = the request
raised), wsOutcome feeds auth_websocket. -/
def keep_alive (tokenResp : Except String TokenResponse)
    (loginResp : Except String SessionResponse)
    (wsOutcome : WsOutcome) :
    Except HandshakeError Unit × List Step :=
  match tokenResp with
  | Except.error e => (Except.error (HandshakeError.transport e), [Step.tokenRequest])
  | Except.ok tr =>
    if tr.success = false then
      (Except.error HandshakeError.tokenRequestFailed, [Step.tokenRequest])
    else if optStrFalsy tr.token then
      (Except.error HandshakeError.tokenMissing, [Step.tokenRequest])
    else
      match loginResp with
      | Except.error e =>
        (Except.error (HandshakeError.transport e), [Step.tokenRequest, Step.loginRequest])
      | Except.ok sr =>
        if sr.success = false then
          (Except.error HandshakeError.loginFailed, [Step.tokenRequest, Step.loginRequest])
        else
          match sr.websocket_host with
          | none =>
            (Except.error (HandshakeError.malformedSessionResponse "websocket_host"),
              [Step.tokenRequest, Step.loginRequest])
          | some _ =>
            match sr.websocket_path with
            | none =>
              (Except.error (HandshakeError.malformedSessionResponse "websocket_path"),
                [Step.tokenRequest, Step.loginRequest])
            | some _ =>
              match sr.session with
              | none =>
                (Except.error (HandshakeError.malformedSessionResponse "session"),
                  [Step.tokenRequest, Step.loginRequest])
              | some _ =>
                match (auth_websocket wsOutcome).1 with
                | Except.error e =>
                  (Except.error (HandshakeError.transport e),
                    [Step.tokenRequest, Step.loginRequest, Step.wsAuth])
                | Except.ok true =>
                  (Except.ok (), [Step.tokenRequest, Step.loginRequest, Step.wsAuth])
                | Except.ok false =>
                  (Except.error HandshakeError.webSocketAuthFailed,
                    [Step.tokenRequest, Step.loginRequest, Step.wsAuth])

/-- C7: a token response with success false fails the handshake with
TokenRequestFailed, and a token response with success true but a missing
or empty token fails with TokenMissing; in both cases the trace stops at
the token request, so the login request is never issued. -/
theorem keep_alive_token_failures (tr : TokenResponse)
    (loginResp : Except String SessionResponse) (wsOutcome : WsOutcome) :
    (tr.success = false →
      keep_alive (Except.ok tr) loginResp wsOutcome
        = (Except.error HandshakeError.tokenRequestFailed, [Step.tokenRequest])) ∧
    (tr.success = true → optStrFalsy tr.token = true →
      keep_alive (Except.ok tr) loginResp wsOutcome
        = (Except.error HandshakeError.tokenMissing, [Step.tokenRequest])) := by
  constructor
  · intro hs
    simp [keep_alive, hs]
  · intro hs ht
    simp [keep_alive, hs, ht]

/-- C7 witness: the failing-success case at a concrete response, and the
empty-token case at a concrete response, each with the login request
absent from the trace. -/
theorem keep_alive_token_failures_witness :
    keep_alive (Except.ok ⟨false, some "tok"⟩)
        (Except.ok ⟨true, some "h", some "p", some "s"⟩)
        (WsOutcome.frame (Except.ok true))
      = (Except.error HandshakeError.tokenRequestFailed, [Step.tokenRequest]) ∧
    keep_alive (Except.ok ⟨true, some ""⟩)
        (Except.ok ⟨true, some "h", some "p", some "s"⟩)
        (WsOutcome.frame (Except.ok true))
      = (Except.error HandshakeError.tokenMissing, [Step.tokenRequest]) := by
  constructor
  · exact (keep_alive_token_failures _ _ _).1 rfl
  · exact (keep_alive_token_failures _ _ _).2 rfl rfl

/-- C6: a login response with success true that lacks any of the required
fields websocket_host, websocket_path or session fails the handshake with
the malformed-session failure (the KeyError on the first missing key), and
the WebSocket step is never started: the trace stops at the login
request. -/
theorem keep_alive_malformed_session_response (tr : TokenResponse)
    (sr : SessionResponse) (wsOutcome : WsOutcome)
    (htr : tr.success = true) (htok : optStrFalsy tr.token = false)
    (hsr : sr.success = true)
    (hmiss : sr.websocket_host = none ∨ sr.websocket_path = none ∨ sr.session = none) :
    ∃ k, keep_alive (Except.ok tr) (Except.ok sr) wsOutcome
      = (Except.error (HandshakeError.malformedSessionResponse k),
          [Step.tokenRequest, Step.loginRequest]) := by
  rcases hh : sr.websocket_host with _ | host
  · exact ⟨"websocket_host", by simp [keep_alive, htr, htok, hsr, hh]⟩
  · rcases hp : sr.websocket_path with _ | path
    · exact ⟨"websocket_path", by simp [keep_alive, htr, htok, hsr, hh, hp]⟩
    · rcases hs : sr.session with _ | sess
      · exact ⟨"session", by simp [keep_alive, htr, htok, hsr, hh, hp, hs]⟩
      · rw [hh, hp, hs] at hmiss
        rcases hmiss with h | h | h <;> exact absurd h (by simp)

/-- C6 witness: a successful token step and a login response with success
true but no websocket_host yields the malformed-session failure with the
WebSocket step absent from the trace. -/
theorem keep_alive_malformed_session_response_witness :
    ∃ k, keep_alive (Except.ok ⟨true, some "tok"⟩)
        (Except.ok ⟨true, none, some "p", some "s"⟩)
        (WsOutcome.frame (Except.ok true))
      = (Except.error (HandshakeError.malformedSessionResponse k),
          [Step.tokenRequest, Step.loginRequest]) :=
  keep_alive_malformed_session_response _ _ _ rfl rfl rfl (Or.inl rfl)

/-! ## Batch scheduler (run_accounts_batched, src/icka.py lines 287-342)

The Python function returns at once for an empty account list; otherwise
it replaces a non-positive batch_size by the account count and iterates
`for i in range(0, total, batch_size)`, logging a batch-start line with
the batch index, 1-based account range and size, running keep_alive for
each account of the slice inside try/except (logging the error with the
account identifier), and sleeping batch_sleep_seconds after a batch
exactly when `end_idx < total and batch_sleep_seconds > 0`.  The run is
modelled as an event trace; keep_alive is an oracle from an account to
ok or an error message (str(e) of the caught exception).  The loop is
embedded with fuel (one unit per batch suffices since every batch
consumes at least one account). -/

/-- Observable events of one scheduler run: the batch-start log line (with
its numeric fields), the per-account outcome (the success log or the
caught-and-logged error with the account identifier), and an inter-batch
sleep. -/
inductive Event where
  | batchStart (batchIndex startIdx endIdx total size : Nat)
  | handshakeOk (email : String)
  | handshakeErr (email msg : String)
  | sleepBatch (seconds : Int)
deriving DecidableEq

/-- The event produced for one account: the try block around keep_alive
returns normally on ok and logs the caught exception otherwise. -/
def hsEventOf (ka : String → String → Except String Unit) (a : String × String) : Event :=
  match ka a.1 a.2 with
  | Except.ok _ => Event.handshakeOk a.1
  | Except.error e => Event.handshakeErr a.1 e

/-- The inner `for em, pw in batch` loop. -/
def processBatch (ka : String → String → Except String Unit)
    (batch : List (String × String)) : List Event :=
  batch.map (hsEventOf ka)

/-- The `for i in range(0, total, batch_size)` loop over the remaining
accounts, carrying the current offset i and the running batch index.
bs1 + 1 is the effective batch size (always at least one on the reachable
call, so the fuel accounts.length suffices). -/
def batchLoopF (ka : String → String → Except String Unit) (bs1 : Nat) (ss : Int)
    (total : Nat) : Nat → Nat → Nat → List (String × String) → List Event
  | 0, _, _, _ => []
  | _ + 1, _, _, [] => []
  | fuel + 1, i, bIdx, a :: rest0 =>
    Event.batchStart (bIdx + 1) (i + 1) (i + ((a :: rest0).take (bs1 + 1)).length) total
        ((a :: rest0).take (bs1 + 1)).length ::
      (processBatch ka ((a :: rest0).take (bs1 + 1)) ++
        (if i + ((a :: rest0).take (bs1 + 1)).length < total ∧ 0 < ss then
          [Event.sleepBatch ss]
        else []) ++
        batchLoopF ka bs1 ss total fuel (i + ((a :: rest0).take (bs1 + 1)).length) (bIdx + 1)
          (rest0.drop bs1))

/-- Embedding of run_accounts_batched: empty account lists return at once;
otherwise a non-positive batch_size is replaced by the account count and
the batch loop runs from offset 0. -/
def run_accounts_batched (ka : String → String → Except String Unit)
    (accounts : List (String × String)) (batch_size batch_sleep_seconds : Int) :
    List Event :=
  if accounts.length = 0 then []
  else
    batchLoopF ka ((if batch_size ≤ 0 then (accounts.length : Int) else batch_size).toNat - 1)
      batch_sleep_seconds accounts.length accounts.length 0 0 accounts

/-- Specification-side batch plan: contiguous chunks of bs1 + 1 accounts,
in list order. -/
def chunksF (bs1 : Nat) : Nat → List (String × String) → List (List (String × String))
  | 0, _ => []
  | _ + 1, [] => []
  | fuel + 1, a :: rest0 => ((a :: rest0).take (bs1 + 1)) :: chunksF bs1 fuel (rest0.drop bs1)

/-- The batch plan of a run: the whole list in one chunk when batch_size
is non-positive, else chunks of batch_size. -/
def batchPlanSpec (accounts : List (String × String)) (batch_size : Int) :
    List (List (String × String)) :=
  chunksF ((if batch_size ≤ 0 then (accounts.length : Int) else batch_size).toNat - 1)
    accounts.length accounts

/-- Specification-side trace: for each batch of the plan, in order, the
batch-start line and the per-account events, followed by one sleep exactly
when the batch is not the last and the sleep amount is positive. -/
def specBatchTrace (ka : String → String → Except String Unit) (ss : Int) (total : Nat) :
    Nat → Nat → List (List (String × String)) → List Event
  | _, _, [] => []
  | i, bIdx, b :: rest =>
    Event.batchStart (bIdx + 1) (i + 1) (i + b.length) total b.length ::
      (processBatch ka b ++
        (if rest.isEmpty ∨ ss ≤ 0 then [] else [Event.sleepBatch ss]) ++
        specBatchTrace ka ss total (i + b.length) (bIdx + 1) rest)

/-- Whether an event is an inter-batch sleep. -/
def Event.isSleep : Event → Bool
  | Event.sleepBatch _ => true
  | _ => false

/-- Number of inter-batch sleeps in a trace. -/
def sleepCount (tr : List Event) : Nat :=
  tr.countP Event.isSleep

/-- Whether an event is a per-account handshake outcome. -/
def Event.isHandshake : Event → Bool
  | Event.handshakeOk _ => true
  | Event.handshakeErr _ _ => true
  | _ => false

/-- The per-account handshake outcomes of a trace, in order. -/
def handshakeEvents (tr : List Event) : List Event :=
  tr.filter Event.isHandshake

theorem batchLoopF_zero (ka : String → String → Except String Unit) (bs1 : Nat) (ss : Int)
    (total i bIdx : Nat) (rem : List (String × String)) :
    batchLoopF ka bs1 ss total 0 i bIdx rem = [] := rfl

theorem batchLoopF_nil (ka : String → String → Except String Unit) (bs1 : Nat) (ss : Int)
    (total fuel i bIdx : Nat) :
    batchLoopF ka bs1 ss total fuel i bIdx [] = [] := by
  cases fuel <;> rfl

theorem batchLoopF_cons (ka : String → String → Except String Unit) (bs1 : Nat) (ss : Int)
    (total fuel i bIdx : Nat) (a : String × String) (rest0 : List (String × String)) :
    batchLoopF ka bs1 ss total (fuel + 1) i bIdx (a :: rest0)
      = Event.batchStart (bIdx + 1) (i + 1) (i + ((a :: rest0).take (bs1 + 1)).length) total
          ((a :: rest0).take (bs1 + 1)).length ::
        (processBatch ka ((a :: rest0).take (bs1 + 1)) ++
          (if i + ((a :: rest0).take (bs1 + 1)).length < total ∧ 0 < ss then
            [Event.sleepBatch ss]
          else []) ++
          batchLoopF ka bs1 ss total fuel (i + ((a :: rest0).take (bs1 + 1)).length) (bIdx + 1)
            (rest0.drop bs1)) := rfl

theorem chunksF_zero (bs1 : Nat) (rem : List (String × String)) :
    chunksF bs1 0 rem = [] := rfl

theorem chunksF_nil (bs1 fuel : Nat) : chunksF bs1 fuel [] = [] := by
  cases fuel <;> rfl

theorem chunksF_cons (bs1 fuel : Nat) (a : String × String)
    (rest0 : List (String × String)) :
    chunksF bs1 (fuel + 1) (a :: rest0)
      = ((a :: rest0).take (bs1 + 1)) :: chunksF bs1 fuel (rest0.drop bs1) := rfl

theorem chunksF_ne_nil {bs1 fuel : Nat} {a : String × String}
    {rest0 : List (String × String)} (hf : 1 ≤ fuel) :
    chunksF bs1 fuel (a :: rest0) ≠ [] := by
  cases fuel with
  | zero => exact absurd hf (by simp)
  | succ f => rw [chunksF_cons]; simp

theorem specBatchTrace_nil (ka : String → String → Except String Unit) (ss : Int)
    (total i bIdx : Nat) : specBatchTrace ka ss total i bIdx [] = [] := rfl

theorem specBatchTrace_cons (ka : String → String → Except String Unit) (ss : Int)
    (total i bIdx : Nat) (b : List (String × String))
    (rest : List (List (String × String))) :
    specBatchTrace ka ss total i bIdx (b :: rest)
      = Event.batchStart (bIdx + 1) (i + 1) (i + b.length) total b.length ::
        (processBatch ka b ++
          (if rest.isEmpty ∨ ss ≤ 0 then [] else [Event.sleepBatch ss]) ++
          specBatchTrace ka ss total (i + b.length) (bIdx + 1) rest) := rfl

/-- The scheduler loop is the specification-side trace of its chunk plan,
whenever the fuel covers the remaining accounts and the offset invariant
i + rem.length = total holds. -/
theorem batchLoopF_eq_spec (ka : String → String → Except String Unit) (bs1 : Nat)
    (ss : Int) (total : Nat) :
    ∀ (fuel : Nat) (rem : List (String × String)) (i bIdx : Nat),
      rem.length ≤ fuel → i + rem.length = total →
      batchLoopF ka bs1 ss total fuel i bIdx rem
        = specBatchTrace ka ss total i bIdx (chunksF bs1 fuel rem) := by
  intro fuel
  induction fuel with
  | zero =>
    intro rem i bIdx hf _
    have : rem = [] := List.length_eq_zero.mp (Nat.le_zero.mp hf)
    subst this
    rw [batchLoopF_zero, chunksF_zero, specBatchTrace_nil]
  | succ f ih =>
    intro rem i bIdx hf hi
    cases rem with
    | nil => rw [batchLoopF_nil, chunksF_nil, specBatchTrace_nil]
    | cons a rest0 =>
      rw [batchLoopF_cons, chunksF_cons, specBatchTrace_cons]
      have hremlen : (a :: rest0).length = rest0.length + 1 := rfl
      rw [hremlen] at hf hi
      have hsum : ((a :: rest0).take (bs1 + 1)).length + (rest0.drop bs1).length
          = rest0.length + 1 := by
        have h := congrArg List.length (List.take_append_drop (bs1 + 1) (a :: rest0))
        rw [List.length_append] at h
        rw [show List.drop (bs1 + 1) (a :: rest0) = List.drop bs1 rest0 from rfl] at h
        rw [hremlen] at h
        exact h
      have hrest_le : (rest0.drop bs1).length ≤ f := by
        have := List.length_drop bs1 rest0
        omega
      have hinv : (i + ((a :: rest0).take (bs1 + 1)).length) + (rest0.drop bs1).length
          = total := by omega
      have hiff : (i + ((a :: rest0).take (bs1 + 1)).length < total)
          ↔ 0 < (rest0.drop bs1).length := by omega
      have hcond : (i + ((a :: rest0).take (bs1 + 1)).length < total ∧ 0 < ss)
          ↔ ¬((chunksF bs1 f (rest0.drop bs1)).isEmpty ∨ ss ≤ 0) := by
        rw [List.isEmpty_iff]
        constructor
        · rintro ⟨hlt, hss⟩
          rintro (hchunks | hss0)
          · have hne : 0 < (rest0.drop bs1).length := hiff.mp hlt
            cases hd : rest0.drop bs1 with
            | nil => rw [hd] at hne; exact absurd hne (by simp)
            | cons x xs =>
              rw [hd] at hchunks
              have h1f : 1 ≤ f := by
                rw [hd] at hrest_le
                simp at hrest_le
                omega
              exact chunksF_ne_nil h1f hchunks
          · omega
        · intro hcontra
          push_neg at hcontra
          obtain ⟨hchunks, hss⟩ := hcontra
          refine ⟨?_, by omega⟩
          apply hiff.mpr
          cases hd : rest0.drop bs1 with
          | nil => rw [hd, chunksF_nil] at hchunks; exact absurd rfl hchunks
          | cons x xs => simp
      have hif : (if i + ((a :: rest0).take (bs1 + 1)).length < total ∧ 0 < ss then
            [Event.sleepBatch ss]
          else [])
          = (if (chunksF bs1 f (rest0.drop bs1)).isEmpty ∨ ss ≤ 0 then []
            else [Event.sleepBatch ss]) := by
        by_cases hc : i + ((a :: rest0).take (bs1 + 1)).length < total ∧ 0 < ss
        · rw [if_pos hc, if_neg (hcond.mp hc)]
        · rw [if_neg hc]
          by_cases hsp : (chunksF bs1 f (rest0.drop bs1)).isEmpty ∨ ss ≤ 0
          · rw [if_pos hsp]
          · exact absurd (hcond.mpr hsp) hc
      rw [hif,
        ih (rest0.drop bs1) (i + ((a :: rest0).take (bs1 + 1)).length) (bIdx + 1)
          hrest_le hinv]

/-- The chunks concatenate back to the account list: the plan is a
contiguous, order-preserving partition. -/
theorem chunksF_flatten (bs1 : Nat) :
    ∀ (fuel : Nat) (rem : List (String × String)), rem.length ≤ fuel →
      (chunksF bs1 fuel rem).flatten = rem := by
  intro fuel
  induction fuel with
  | zero =>
    intro rem hf
    have : rem = [] := List.length_eq_zero.mp (Nat.le_zero.mp hf)
    subst this
    rw [chunksF_zero]
    rfl
  | succ f ih =>
    intro rem hf
    cases rem with
    | nil => rw [chunksF_nil]; rfl
    | cons a rest0 =>
      rw [chunksF_cons, List.flatten_cons]
      have hrest_le : (rest0.drop bs1).length ≤ f := by
        have := List.length_drop bs1 rest0
        have : (a :: rest0).length = rest0.length + 1 := rfl
        simp at hf
        have := List.length_drop bs1 rest0
        omega
      rw [ih (rest0.drop bs1) hrest_le]
      rw [show List.drop bs1 rest0 = List.drop (bs1 + 1) (a :: rest0) from rfl]
      exact List.take_append_drop (bs1 + 1) (a :: rest0)

/-- Every chunk of the plan is nonempty and no larger than the effective
batch size. -/
theorem chunksF_sizes (bs1 : Nat) :
    ∀ (fuel : Nat) (rem : List (String × String)) (b : List (String × String)),
      b ∈ chunksF bs1 fuel rem → b ≠ [] ∧ b.length ≤ bs1 + 1 := by
  intro fuel
  induction fuel with
  | zero =>
    intro rem b hb
    rw [chunksF_zero] at hb
    exact absurd hb (by simp)
  | succ f ih =>
    intro rem b hb
    cases rem with
    | nil => rw [chunksF_nil] at hb; exact absurd hb (by simp)
    | cons a rest0 =>
      rw [chunksF_cons] at hb
      rcases List.mem_cons.mp hb with h | h
      · subst h
        constructor
        · rw [show (a :: rest0).take (bs1 + 1) = a :: rest0.take bs1 from rfl]
          simp
        · rw [List.length_take]
          exact min_le_left _ _
      · exact ih (rest0.drop bs1) b h

/-- With a non-positive batch size the plan of a nonempty account list is
the whole list in one batch. -/
theorem chunksF_single (a : String × String) (rest0 : List (String × String)) :
    chunksF rest0.length (rest0.length + 1) (a :: rest0) = [a :: rest0] := by
  rw [chunksF_cons]
  rw [show (a :: rest0).take (rest0.length + 1) = a :: rest0.take rest0.length from rfl]
  rw [List.take_length, List.drop_length, chunksF_nil]

/-- A batch contributes no sleep events. -/
theorem sleepCount_processBatch (ka : String → String → Except String Unit)
    (batch : List (String × String)) : sleepCount (processBatch ka batch) = 0 := by
  rw [sleepCount, List.countP_eq_zero]
  intro e he
  obtain ⟨a, _, hae⟩ := List.mem_map.mp he
  rw [← hae]
  unfold hsEventOf
  cases ka a.1 a.2 <;> simp [Event.isSleep]

/-- The specification-side trace sleeps once between consecutive batches
when the sleep amount is positive, and never otherwise. -/
theorem sleepCount_specBatchTrace (ka : String → String → Except String Unit)
    (ss : Int) (total : Nat) :
    ∀ (plan : List (List (String × String))) (i bIdx : Nat),
      sleepCount (specBatchTrace ka ss total i bIdx plan)
        = if 0 < ss then plan.length - 1 else 0 := by
  intro plan
  induction plan with
  | nil =>
    intro i bIdx
    rw [specBatchTrace_nil]
    simp [sleepCount]
  | cons b rest ih =>
    intro i bIdx
    rw [specBatchTrace_cons]
    simp only [sleepCount] at ih ⊢
    rw [List.countP_cons, List.countP_append, List.countP_append]
    have hpb : List.countP Event.isSleep (processBatch ka b) = 0 := by
      rw [List.countP_eq_zero]
      intro e he
      obtain ⟨a, _, hae⟩ := List.mem_map.mp he
      rw [← hae]
      unfold hsEventOf
      cases ka a.1 a.2 <;> simp [Event.isSleep]
    rw [hpb, ih (i + b.length) (bIdx + 1)]
    have hbs : (if Event.isSleep
          (Event.batchStart (bIdx + 1) (i + 1) (i + b.length) total b.length) = true then 1
        else 0) = 0 := by
      simp [Event.isSleep]
    rw [hbs]
    cases rest with
    | nil =>
      rw [if_pos (show ([] : List (List (String × String))).isEmpty = true ∨ ss ≤ 0
        from Or.inl rfl)]
      simp
    | cons r rs =>
      by_cases hss : 0 < ss
      · rw [if_neg (show ¬((r :: rs).isEmpty = true ∨ ss ≤ 0) by simp; omega),
          if_pos hss, if_pos hss]
        simp [Event.isSleep]
        omega
      · rw [if_pos (show (r :: rs).isEmpty = true ∨ ss ≤ 0 from Or.inr (by omega)),
          if_neg hss, if_neg hss]
        simp

theorem getLast_opt_cons_of_ne_nil {α : Type} {x : α} {l : List α} (h : l ≠ []) :
    (x :: l).getLast? = l.getLast? := by
  rw [show x :: l = [x] ++ l from rfl]
  exact List.getLast?_append_of_ne_nil [x] h

theorem getLast_not_sleep_of_no_sleep {l : List Event}
    (h : ∀ e ∈ l, Event.isSleep e = false) (s : Int) :
    l.getLast? ≠ some (Event.sleepBatch s) := by
  intro hcontra
  have hmem := List.mem_of_getLast?_eq_some hcontra
  have := h _ hmem
  simp [Event.isSleep] at this

theorem specBatchTrace_cons_ne_nil (ka : String → String → Except String Unit) (ss : Int)
    (total i bIdx : Nat) (b : List (String × String))
    (rest : List (List (String × String))) :
    specBatchTrace ka ss total i bIdx (b :: rest) ≠ [] := by
  rw [specBatchTrace_cons]
  simp

/-- The specification-side trace never ends with a sleep: no sleep follows
the final batch. -/
theorem specBatchTrace_no_trailing_sleep (ka : String → String → Except String Unit)
    (ss : Int) (total : Nat) :
    ∀ (plan : List (List (String × String))) (i bIdx : Nat) (s : Int),
      (specBatchTrace ka ss total i bIdx plan).getLast? ≠ some (Event.sleepBatch s) := by
  intro plan
  induction plan with
  | nil =>
    intro i bIdx s
    rw [specBatchTrace_nil]
    simp
  | cons b rest ih =>
    intro i bIdx s
    rw [specBatchTrace_cons]
    cases rest with
    | nil =>
      rw [if_pos (show ([] : List (List (String × String))).isEmpty = true ∨ ss ≤ 0
          from Or.inl rfl),
        specBatchTrace_nil]
      apply getLast_not_sleep_of_no_sleep
      intro e he
      rcases List.mem_cons.mp he with h | h
      · subst h; rfl
      · have hpb : e ∈ processBatch ka b := by simpa using h
        obtain ⟨a, _, hae⟩ := List.mem_map.mp hpb
        rw [← hae]
        unfold hsEventOf
        cases ka a.1 a.2 <;> rfl
    | cons r rs =>
      have hne : specBatchTrace ka ss total (i + b.length) (bIdx + 1) (r :: rs) ≠ [] :=
        specBatchTrace_cons_ne_nil ka ss total (i + b.length) (bIdx + 1) r rs
      rw [getLast_opt_cons_of_ne_nil (by
          intro hcontra
          exact hne (List.append_eq_nil.mp hcontra).2),
        List.getLast?_append_of_ne_nil _ hne]
      exact ih (i + b.length) (bIdx + 1) s

/-- The handshake events of the specification-side trace are exactly the
per-account outcomes of the plan's accounts, in order. -/
theorem handshakeEvents_specBatchTrace (ka : String → String → Except String Unit)
    (ss : Int) (total : Nat) :
    ∀ (plan : List (List (String × String))) (i bIdx : Nat),
      handshakeEvents (specBatchTrace ka ss total i bIdx plan)
        = plan.flatten.map (hsEventOf ka) := by
  intro plan
  induction plan with
  | nil =>
    intro i bIdx
    rw [specBatchTrace_nil]
    rfl
  | cons b rest ih =>
    intro i bIdx
    rw [specBatchTrace_cons, List.flatten_cons]
    simp only [handshakeEvents] at ih ⊢
    rw [List.filter_cons_of_neg (by simp [Event.isHandshake]),
      List.filter_append, List.filter_append]
    have hpb : List.filter Event.isHandshake (processBatch ka b) = processBatch ka b := by
      rw [List.filter_eq_self]
      intro e he
      obtain ⟨a, _, hae⟩ := List.mem_map.mp he
      rw [← hae]
      unfold hsEventOf
      cases ka a.1 a.2 <;> rfl
    have hseg : List.filter Event.isHandshake
        (if rest.isEmpty = true ∨ ss ≤ 0 then [] else [Event.sleepBatch ss]) = [] := by
      split
      · rfl
      · rfl
    rw [hpb, hseg, ih (i + b.length) (bIdx + 1), List.map_append]
    simp [processBatch]

/-- C1: the Batch Scheduler partitions the account list into contiguous
batches processed in list order - the run's trace is the per-batch trace
of its plan, the plan concatenates back to the account list, every batch
is nonempty and at most batchSize long when batchSize is positive, and a
non-positive batchSize makes the whole (nonempty) list a single batch
while an empty list yields no batches (the empty partition).  A sleep of
batchSleepSeconds follows every batch except the last exactly when
batchSleepSeconds is positive - the trace has one sleep between
consecutive batches (count = number of batches - 1), none when
batchSleepSeconds is non-positive, and never ends in a sleep.  Twelve
accounts with batchSize 5 give batch sizes 5, 5, 2. -/
theorem batch_scheduler_partitions_and_paces (ka : String → String → Except String Unit)
    (accounts : List (String × String)) (batch_size batch_sleep_seconds : Int) :
    run_accounts_batched ka accounts batch_size batch_sleep_seconds
      = specBatchTrace ka batch_sleep_seconds accounts.length 0 0
          (batchPlanSpec accounts batch_size) ∧
    (batchPlanSpec accounts batch_size).flatten = accounts ∧
    (∀ b ∈ batchPlanSpec accounts batch_size,
      b ≠ [] ∧ (0 < batch_size → b.length ≤ batch_size.toNat)) ∧
    (batch_size ≤ 0 →
      batchPlanSpec accounts batch_size
        = if accounts.isEmpty then [] else [accounts]) ∧
    sleepCount (run_accounts_batched ka accounts batch_size batch_sleep_seconds)
      = (if 0 < batch_sleep_seconds then (batchPlanSpec accounts batch_size).length - 1
        else 0) ∧
    (∀ s, (run_accounts_batched ka accounts batch_size batch_sleep_seconds).getLast?
      ≠ some (Event.sleepBatch s)) ∧
    (batchPlanSpec (List.replicate 12 ("a", "p")) 5).map List.length = [5, 5, 2] := by
  have h1 : run_accounts_batched ka accounts batch_size batch_sleep_seconds
      = specBatchTrace ka batch_sleep_seconds accounts.length 0 0
          (batchPlanSpec accounts batch_size) := by
    by_cases hlen : accounts.length = 0
    · have hemp : accounts = [] := List.length_eq_zero.mp hlen
      subst hemp
      rw [show run_accounts_batched ka [] batch_size batch_sleep_seconds = [] from rfl,
        show batchPlanSpec [] batch_size = [] from by
          unfold batchPlanSpec
          rw [show ([] : List (String × String)).length = 0 from rfl, chunksF_zero],
        specBatchTrace_nil]
    · unfold run_accounts_batched batchPlanSpec
      rw [if_neg hlen]
      exact batchLoopF_eq_spec ka _ _ _ accounts.length accounts 0 0 (le_refl _)
        (Nat.zero_add _)
  refine ⟨h1, ?_, ?_, ?_, ?_, ?_, by decide⟩
  · unfold batchPlanSpec
    exact chunksF_flatten _ accounts.length accounts (le_refl _)
  · intro b hb
    unfold batchPlanSpec at hb
    have hs := chunksF_sizes _ accounts.length accounts b hb
    refine ⟨hs.1, fun hpos => ?_⟩
    have hbs : (if batch_size ≤ 0 then (accounts.length : Int) else batch_size)
        = batch_size := if_neg (by omega)
    rw [hbs] at hs
    have htn : 1 ≤ batch_size.toNat := by omega
    omega
  · intro hle
    unfold batchPlanSpec
    rw [if_pos hle]
    cases accounts with
    | nil =>
      rw [show ([] : List (String × String)).length = 0 from rfl, chunksF_zero]
      rfl
    | cons a rest0 =>
      rw [show ((a :: rest0).length : Int).toNat = rest0.length + 1 from by
          rw [show (a :: rest0).length = rest0.length + 1 from rfl]
          exact Int.toNat_natCast _,
        show rest0.length + 1 - 1 = rest0.length from rfl,
        show (a :: rest0).length = rest0.length + 1 from rfl,
        chunksF_single]
      rfl
  · rw [h1]
    exact sleepCount_specBatchTrace ka _ _ (batchPlanSpec accounts batch_size) 0 0
  · intro s
    rw [h1]
    exact specBatchTrace_no_trailing_sleep ka _ _ (batchPlanSpec accounts batch_size) 0 0 s

/-- Oracle that succeeds on every account. -/
def kaAllOk : String → String → Except String Unit := fun _ _ => Except.ok ()

/-- C1 witness: with 12 accounts, batchSize 5 and batchSleepSeconds 7,
sleep is invoked exactly twice; every batch of the plan has size at most
5; and batchSize 0 yields the whole list as the single batch. -/
theorem batch_scheduler_partitions_and_paces_witness :
    sleepCount (run_accounts_batched kaAllOk (List.replicate 12 ("a", "p")) 5 7) = 2 ∧
    (∀ b ∈ batchPlanSpec (List.replicate 12 ("a", "p")) 5, b.length ≤ (5 : Int).toNat) ∧
    batchPlanSpec (List.replicate 12 ("a", "p")) 0 = [List.replicate 12 ("a", "p")] := by
  have h := batch_scheduler_partitions_and_paces kaAllOk (List.replicate 12 ("a", "p")) 5 7
  refine ⟨?_, ?_, ?_⟩
  · rw [h.2.2.2.2.1]
    decide
  · intro b hb
    exact (h.2.2.1 b hb).2 (by decide)
  · have h0 := batch_scheduler_partitions_and_paces kaAllOk (List.replicate 12 ("a", "p")) 0 7
    rw [h0.2.2.2.1 (by decide)]
    decide

/-- Oracle that fails exactly on the account named "b". -/
def kaFailSecond : String → String → Except String Unit :=
  fun em _ => if em = "b" then Except.error "handshake failed" else Except.ok ()

/-- C2: whatever the keep-alive oracle does, the handshake outcomes of a
run are exactly one per account, in list order: a failure is caught and
logged with that account's identifier and reason, every later account is
still processed, and the scheduler returns normally (the run is a total
function into traces).  In the concrete 3-account scenario where account 2
fails, accounts 1 and 3 still execute. -/
theorem batch_scheduler_failure_isolation (ka : String → String → Except String Unit)
    (accounts : List (String × String)) (batch_size batch_sleep_seconds : Int) :
    handshakeEvents (run_accounts_batched ka accounts batch_size batch_sleep_seconds)
      = accounts.map (hsEventOf ka) ∧
    handshakeEvents (run_accounts_batched kaFailSecond
        [("a", "1"), ("b", "2"), ("c", "3")] 3 0)
      = [Event.handshakeOk "a", Event.handshakeErr "b" "handshake failed",
          Event.handshakeOk "c"] := by
  constructor
  · by_cases hlen : accounts.length = 0
    · have hemp : accounts = [] := List.length_eq_zero.mp hlen
      subst hemp
      rfl
    · unfold run_accounts_batched
      rw [if_neg hlen,
        batchLoopF_eq_spec ka _ _ _ accounts.length accounts 0 0 (le_refl _)
          (Nat.zero_add _),
        handshakeEvents_specBatchTrace ka _ _ _ 0 0,
        chunksF_flatten _ accounts.length accounts (le_refl _)]
  · decide

/-! ## Run loop (main, src/icka.py lines 424-444)

After configuration resolution, main either runs the Batch Scheduler once
and returns (one-shot), or - in forever mode - parses the sleep-interval
string once with parse_duration_to_seconds (turning a ValueError into a
SystemExit before any scheduler invocation) and then loops forever,
alternating one scheduler invocation with one sleep of the parsed
interval.  The infinite loop is modelled by its finite prefixes: the trace
after any number of completed iterations, for every iteration count.  The
Except result records configuration failure (SystemExit) versus normal
operation. -/

/-- Observable events of the run loop: the one parse of the sleep-interval
string, one Batch Scheduler invocation (one run_accounts_batched call),
and one inter-iteration sleep of the parsed number of seconds. -/
inductive MainEvent where
  | parseSleepInterval (s : String)
  | schedulerRun
  | iterSleep (seconds : ℚ)
deriving DecidableEq

/-- Embedding of the mode-dependent tail of main: the one-shot branch, or
the forever branch observed for the given number of loop iterations. -/
def main_run (forever : Bool) (sleepInterval : String) (iterations : Nat) :
    Except String Unit × List MainEvent :=
  if forever = false then (Except.ok (), [MainEvent.schedulerRun])
  else
    match parse_duration_to_seconds sleepInterval with
    | Except.error e =>
      (Except.error ("unable to parse --sleep-interval: " ++ e),
        [MainEvent.parseSleepInterval sleepInterval])
    | Except.ok secs =>
      (Except.ok (),
        MainEvent.parseSleepInterval sleepInterval ::
          (List.replicate iterations [MainEvent.schedulerRun, MainEvent.iterSleep secs]).flatten)

/-- Whether an event is a Batch Scheduler invocation. -/
def MainEvent.isSchedulerRun : MainEvent → Bool
  | MainEvent.schedulerRun => true
  | _ => false

/-- Whether an event is the parse of the sleep-interval string. -/
def MainEvent.isParse : MainEvent → Bool
  | MainEvent.parseSleepInterval _ => true
  | _ => false

theorem replicate_flatten_counts (secs : ℚ) (k : Nat) :
    (List.replicate k [MainEvent.schedulerRun, MainEvent.iterSleep secs]).flatten.countP
        MainEvent.isSchedulerRun = k ∧
    (List.replicate k [MainEvent.schedulerRun, MainEvent.iterSleep secs]).flatten.countP
        MainEvent.isParse = 0 := by
  induction k with
  | zero => exact ⟨rfl, rfl⟩
  | succ k ih =>
    rw [List.replicate_succ, List.flatten_cons]
    constructor
    · rw [List.countP_append, ih.1]
      rw [show List.countP MainEvent.isSchedulerRun
          [MainEvent.schedulerRun, MainEvent.iterSleep secs] = 1 from rfl]
      omega
    · rw [List.countP_append, ih.2]
      rfl

/-- C9: in one-shot mode the run loop invokes the Batch Scheduler exactly
once, with no parse and no sleep, and returns.  In forever mode the
sleep-interval string is parsed exactly once, before the first scheduler
invocation; an unparseable string exits with the SystemExit message before
any scheduler invocation; and otherwise, for every number of completed
iterations, the trace after the single leading parse is an alternation of
one scheduler invocation and one sleep of the parsed interval,
indefinitely. -/
theorem run_loop_modes (sleepInterval : String) (iterations : Nat) :
    main_run false sleepInterval iterations = (Except.ok (), [MainEvent.schedulerRun]) ∧
    (∀ e, parse_duration_to_seconds sleepInterval = Except.error e →
      main_run true sleepInterval iterations
        = (Except.error ("unable to parse --sleep-interval: " ++ e),
            [MainEvent.parseSleepInterval sleepInterval]) ∧
      MainEvent.schedulerRun ∉ (main_run true sleepInterval iterations).2) ∧
    (∀ t, parse_duration_to_seconds sleepInterval = Except.ok t →
      main_run true sleepInterval iterations
        = (Except.ok (),
            MainEvent.parseSleepInterval sleepInterval ::
              (List.replicate iterations
                [MainEvent.schedulerRun, MainEvent.iterSleep t]).flatten) ∧
      (main_run true sleepInterval iterations).2.countP MainEvent.isParse = 1 ∧
      (main_run true sleepInterval iterations).2.countP MainEvent.isSchedulerRun
        = iterations) := by
  refine ⟨rfl, ?_, ?_⟩
  · intro e he
    have hm : main_run true sleepInterval iterations
        = (Except.error ("unable to parse --sleep-interval: " ++ e),
            [MainEvent.parseSleepInterval sleepInterval]) := by
      unfold main_run
      rw [if_neg (by simp)]
      rw [he]
    refine ⟨hm, ?_⟩
    rw [hm]
    simp
  · intro t ht
    have hm : main_run true sleepInterval iterations
        = (Except.ok (),
            MainEvent.parseSleepInterval sleepInterval ::
              (List.replicate iterations
                [MainEvent.schedulerRun, MainEvent.iterSleep t]).flatten) := by
      unfold main_run
      rw [if_neg (by simp)]
      rw [ht]
    refine ⟨hm, ?_, ?_⟩
    · have h2 := congrArg Prod.snd hm
      simp only at h2
      rw [h2, List.countP_cons, (replicate_flatten_counts t iterations).2]
      rfl
    · have h2 := congrArg Prod.snd hm
      simp only at h2
      rw [h2, List.countP_cons, (replicate_flatten_counts t iterations).1]
      rfl

/-- C9 witness: the unparseable interval "abc" exits with the SystemExit
message and never invokes the scheduler, while "1h" parses to 3600 and two
iterations give parse, run, sleep 3600, run, sleep 3600. -/
theorem run_loop_modes_witness :
    main_run true "abc" 2
      = (Except.error "unable to parse --sleep-interval: Could not parse duration: abc",
          [MainEvent.parseSleepInterval "abc"]) ∧
    main_run true "1h" 2
      = (Except.ok (),
          [MainEvent.parseSleepInterval "1h", MainEvent.schedulerRun,
            MainEvent.iterSleep 3600, MainEvent.schedulerRun, MainEvent.iterSleep 3600]) := by
  constructor
  · have h := (run_loop_modes "abc" 2).2.1 "Could not parse duration: abc"
      (duration_parser_failure_condition "abc").2.2
    exact h.1
  · have hp : parse_duration_to_seconds "1h" = Except.ok 3600 := by
      unfold parse_duration_to_seconds
      rw [show scanTokens "1h".data = [(mkRat 1 1, 'h')] from by decide]
      norm_num [durationTotal, show unitSeconds 'h' = (3600 : ℚ) from rfl, Rat.mkRat_eq_div]
    have h := ((run_loop_modes "1h" 2).2.2 3600 hp).1
    rw [h]
    rfl
